import Mathlib

/-!
Shallow embedding of the todo-list core library (src/lib) of the
golem-todo-list repository: the validated value types (title, deadline,
result limit), the query/filter/sort engine, and the keyed in-memory store
with its CRUD operations and bounded top-N search.

Modelling conventions:
* Rust `Uuid` is an opaque identifier compared only for equality; it is
  modelled as `Nat`.
* Unix timestamps (`i64`) are modelled as `Int`; the code never overflows
  the 64-bit range for the values involved, so no wrap-around modelling is
  needed.
* `Utc::now().timestamp()` is an external clock reading; mutating
  operations take the current reading as an explicit `now : Int` argument.
* `Uuid::new_v4()` draws a fresh random identifier; `add` takes the drawn
  identifier as an explicit argument.
* `HashMap<Uuid, Todo>` is modelled as a `List Todo` holding the values in
  their (arbitrary) iteration order, with key lookup by the `id` field.
* `chrono::NaiveDateTime::parse_from_str` with the fixed format
  `"%Y-%m-%d %H:%M:%S"` (applied by the code to the trimmed input with
  `":00:00"` appended) is modelled by an executable civil-calendar parser
  with the same success domain and the same resulting epoch seconds.
* `binary_heap_plus::BinaryHeap::with_capacity_by_key` is modelled by its
  documented contract (mirroring `std::collections::BinaryHeap`): the heap
  is a max-heap with respect to the derived key, `peek_mut` yields a
  maximal element, and `into_sorted_vec` returns the elements in ascending
  key order. The heap state is represented by the list of its elements.
-/

/-! ## Core value types -/

abbrev UnixTime : Type := Int

abbrev Uuid : Type := Nat

/-- `Status` from src/lib/src/todos/mod.rs; derived `Ord` follows
declaration order: `InProgress < Backlog < Done`. -/
inductive Status : Type where
  | inProgress : Status
  | backlog : Status
  | don : Status
deriving DecidableEq, Repr

/-- Discriminant of `Status` (its derived `Ord` compares these). -/
def Status.toNat : Status → Nat
  | .inProgress => 0
  | .backlog => 1
  | .don => 2

/-- `Priority` from src/lib/src/todos/mod.rs; derived `Ord` follows
declaration order: `Low < Medium < High`. -/
inductive Priority : Type where
  | low : Priority
  | medium : Priority
  | high : Priority
deriving DecidableEq, Repr

/-- Discriminant of `Priority` (its derived `Ord` compares these). -/
def Priority.toNat : Priority → Nat
  | .low => 0
  | .medium => 1
  | .high => 2

/-- `AppError` from src/lib/src/app_error.rs (payloads kept for the
variants the core library constructs). -/
inductive AppError : Type where
  | collectionIsEmpty : AppError
  | dataConversionU32ToUsize : AppError
  | dataConversionUsizeToU64 : Nat → AppError
  | dateTimeParseError : String → String → AppError
  | emptyTodoTitle : AppError
  | invalidUuid : String → AppError
  | tooLongTodoTitle : String → Nat → AppError
  | todoNotFound : Uuid → AppError
  | updateHasNoChanges : AppError
deriving DecidableEq, Repr

/-- Rust `str::trim` on the character list (drop whitespace from both
ends). -/
def trimChars (l : List Char) : List Char :=
  ((l.dropWhile Char.isWhitespace).reverse.dropWhile
    Char.isWhitespace).reverse

/-- Rust `str::trim`. -/
def strTrim (s : String) : String := ⟨trimChars s.data⟩

/-! ## Title (src/lib/src/title.rs)

`Title` is a nutype wrapper that sanitizes with `trim` on construction; its
inner value is therefore always the trimmed string.  `validated` checks the
byte length of the inner string. -/

structure Title : Type where
  inner : String
deriving DecidableEq, Repr

/-- `Title::new` (the nutype constructor with `sanitize(trim)`). -/
def Title.new (s : String) : Title := ⟨strTrim s⟩

/-- `Title::MAX_LEN` from src/lib/src/title.rs. -/
def Title.MAX_LEN : Nat := 30

/-- `Title::validated` from src/lib/src/title.rs: fails when the sanitized
string is empty, or when its byte length exceeds `MAX_LEN`. -/
def Title.validated (t : Title) : Except AppError String :=
  let title := t.inner
  let size := title.utf8ByteSize
  if size < 1 then
    .error .emptyTodoTitle
  else if size > Title.MAX_LEN then
    .error (.tooLongTodoTitle title Title.MAX_LEN)
  else
    .ok title

/-! ## Deadline parsing (src/lib/src/deadline.rs)

The code trims the raw input, appends `":00:00"` and parses with chrono
format `"%Y-%m-%d %H:%M:%S"`; success therefore means the trimmed input has
the numeric shape year `-` month `-` day ` ` hour with a valid civil date
and hour, and the result is the epoch second count of that hour (UTC). -/

/-- Greedily read up to `width` leading decimal digits (at least one), as
chrono numeric-field parsing does; returns the value and rest. -/
def readNum (width : Nat) : List Char → Option (Nat × List Char)
  | [] => none
  | c :: cs =>
    if c.isDigit then
      let d0 := c.toNat - 48
      let rec go : Nat → Nat → List Char → Nat × List Char
        | _, acc, [] => (acc, [])
        | 0, acc, rest => (acc, rest)
        | Nat.succ w, acc, c2 :: cs2 =>
          if c2.isDigit then go w (acc * 10 + (c2.toNat - 48)) cs2
          else (acc, c2 :: cs2)
      some (go (width - 1) d0 cs)
    else none

/-- Leap-year test of the proleptic Gregorian calendar. -/
def isLeapYear (y : Int) : Bool :=
  y % 4 == 0 && (y % 100 != 0 || y % 400 == 0)

/-- Number of days in a month of the proleptic Gregorian calendar. -/
def daysInMonth (y : Int) (m : Nat) : Nat :=
  if m == 2 then (if isLeapYear y then 29 else 28)
  else if m == 4 || m == 6 || m == 9 || m == 11 then 30
  else 31

/-- Days from 1970-01-01 to the given civil date (standard civil-calendar
day-count algorithm). -/
def daysFromCivil (y : Int) (m d : Nat) : Int :=
  let y' : Int := if m ≤ 2 then y - 1 else y
  let era : Int := (if y' ≥ 0 then y' else y' - 399) / 400
  let yoe : Int := y' - era * 400
  let mp : Int := (Int.ofNat m + 9) % 12
  let doy : Int := (153 * mp + 2) / 5 + Int.ofNat d - 1
  let doe : Int := yoe * 365 + yoe / 4 - yoe / 100 + doy
  era * 146097 + doe - 719468

/-- Parse a trimmed deadline string of shape `"Y-M-D H"` (chrono numeric
fields: 1-4 year digits, 1-2 for month, day and hour) into epoch seconds;
`none` on any shape, range or calendar violation. -/
def parseDeadline (s : String) : Option Int :=
  match readNum 4 s.toList with
  | none => none
  | some (y, r1) =>
    match r1 with
    | '-' :: r2 =>
      match readNum 2 r2 with
      | none => none
      | some (mo, r3) =>
        match r3 with
        | '-' :: r4 =>
          match readNum 2 r4 with
          | none => none
          | some (d, r5) =>
            match r5 with
            | ' ' :: r6 =>
              match readNum 2 r6 with
              | none => none
              | some (h, r7) =>
                if r7 = [] ∧ 1 ≤ mo ∧ mo ≤ 12 ∧ 1 ≤ d ∧
                    d ≤ daysInMonth (Int.ofNat y) mo ∧ h ≤ 23 then
                  some (daysFromCivil (Int.ofNat y) mo d * 86400 +
                    Int.ofNat h * 3600)
                else none
            | _ => none
        | _ => none
    | _ => none

/-- `USER_DATE_TIME_FORMAT` from src/lib/src/deadline.rs. -/
def USER_DATE_TIME_FORMAT : String := "%Y-%m-%d %H"

/-- `OptionalDeadlineInput` wraps an optional raw string. -/
abbrev OptionalDeadlineInput : Type := Option String

/-- `OptionalDeadlineInput::unix_time` from src/lib/src/deadline.rs:
absent input resolves to no deadline; present input is trimmed and parsed,
failing with `DateTimeParseError` carrying the raw input and the
user-facing format. -/
def OptionalDeadlineInput.unixTime (i : OptionalDeadlineInput) :
    Except AppError (Option UnixTime) :=
  match i with
  | none => .ok none
  | some s =>
    match parseDeadline (strTrim s) with
    | some t => .ok (some t)
    | none => .error (.dateTimeParseError s USER_DATE_TIME_FORMAT)

/-! ## Result limit (src/lib/src/result_limit.rs)

`OptionalResultLimit` wraps an `Option<u32>`; `validated` clamps it into
`[1, 100]` with default 10 and converts to `usize`.  On the modelled 64-bit
platform the `u32 -> usize` conversion never fails, so the conversion layer
is omitted and the result is a plain `Nat`.  The identical clamping also
appears as `Query::validate_limit` in src/lib/src/query.rs. -/

abbrev OptionalResultLimit : Type := Option Nat

def QUERY_DEFAULT_LIMIT : Nat := 10

def QUERY_MAX_LIMIT : Nat := 100

/-- `OptionalResultLimit::validated` from src/lib/src/result_limit.rs. -/
def OptionalResultLimit.validated (l : OptionalResultLimit) : Nat :=
  match l with
  | some n =>
    if n > QUERY_MAX_LIMIT then QUERY_MAX_LIMIT
    else if n < 1 then QUERY_DEFAULT_LIMIT
    else n
  | none => QUERY_DEFAULT_LIMIT

/-! ## Todo record and inputs (src/lib/src/todos/mod.rs) -/

structure Todo : Type where
  id : Uuid
  title : String
  priority : Priority
  status : Status
  created_timestamp : UnixTime
  updated_timestamp : UnixTime
  deadline : Option UnixTime
deriving DecidableEq, Repr

structure NewTodo : Type where
  title : Title
  priority : Priority
  deadline : OptionalDeadlineInput
deriving DecidableEq, Repr

structure UpdateTodo : Type where
  title : Option Title
  priority : Option Priority
  status : Option Status
  deadline : OptionalDeadlineInput
deriving DecidableEq, Repr

/-- `UpdateTodo::change_is_present`. -/
def UpdateTodo.change_is_present (c : UpdateTodo) : Bool :=
  c.title.isSome || c.priority.isSome || c.status.isSome ||
    c.deadline.isSome

/-! ## Query (src/lib/src/query.rs) -/

inductive QuerySort : Type where
  | deadline : QuerySort
  | priority : QuerySort
  | status : QuerySort
deriving DecidableEq, Repr

structure Query : Type where
  keyword : Option String
  priority : Option Priority
  status : Option Status
  deadline : OptionalDeadlineInput
  sort : Option QuerySort
  limit : OptionalResultLimit
deriving DecidableEq, Repr

/-- Byte-level substring containment of Rust `str::contains(&str)`,
expressed on the character lists (for valid UTF-8 the two coincide). -/
def charsPrefixOf : List Char → List Char → Bool
  | [], _ => true
  | _ :: _, [] => false
  | a :: as_, b :: bs => a == b && charsPrefixOf as_ bs

def charsInfixOf (p : List Char) : List Char → Bool
  | [] => charsPrefixOf p []
  | c :: tl => charsPrefixOf p (c :: tl) || charsInfixOf p tl

def strContains (s pat : String) : Bool :=
  charsInfixOf pat.toList s.toList

/-- `Query::match_keyword`: unset keyword matches everything, a set
keyword matches when the title contains it as a substring. -/
def Query.matchKeyword (q : Query) (t : Todo) : Bool :=
  match q.keyword with
  | some k => strContains t.title k
  | none => true

/-- `Query::match_priority`. -/
def Query.matchPriority (q : Query) (t : Todo) : Bool :=
  match q.priority with
  | some p => p == t.priority
  | none => true

/-- `Query::match_status`. -/
def Query.matchStatus (q : Query) (t : Todo) : Bool :=
  match q.status with
  | some s => s == t.status
  | none => true

/-- `Query::match_deadline` (static): an absent resolved bound matches
everything; a present bound is satisfied by records with no deadline, and
by records whose deadline is at most the bound. -/
def Query.matchDeadline (deadline : Option UnixTime) (t : Todo) : Bool :=
  match deadline with
  | some dl =>
    match t.deadline with
    | some before => before ≤ dl
    | none => true
  | none => true

/-- Combined filter of `TodoList::filter_by`: the four predicates joined
with logical AND. -/
def Query.matches (q : Query) (deadline : Option UnixTime) (t : Todo) :
    Bool :=
  q.matchKeyword t && q.matchPriority t && q.matchStatus t &&
    Query.matchDeadline deadline t

/-! ## Sort keys (src/lib/src/sort_by.rs)

`SortBy` derives `Ord`; variants compare by declaration order first, then
by payload.  `Deadline` and `Priority` wrap their payload in
`core::cmp::Reverse`, which flips the payload comparison.  `Option<i64>`
orders `None` below every `Some`. -/

inductive SortBy : Type where
  | deadlineKey : Option Int → SortBy
  | priorityKey : Priority → SortBy
  | statusKey : Status → SortBy
  | titleKey : String → SortBy
deriving DecidableEq, Repr

/-- Three-way comparison on `Int` (Rust `i64::cmp`). -/
def cmpInt (a b : Int) : Ordering :=
  if a < b then .lt else if b < a then .gt else .eq

/-- Three-way comparison on `Nat` (used for enum discriminants). -/
def cmpNat (a b : Nat) : Ordering :=
  if a < b then .lt else if b < a then .gt else .eq

/-- Rust derived `Ord` on `Option<i64>`: `None` is least. -/
def cmpOptInt : Option Int → Option Int → Ordering
  | none, none => .eq
  | none, some _ => .lt
  | some _, none => .gt
  | some a, some b => cmpInt a b

/-- Lexicographic three-way comparison of character lists by codepoint. -/
def cmpCharList : List Char → List Char → Ordering
  | [], [] => .eq
  | [], _ :: _ => .lt
  | _ :: _, [] => .gt
  | a :: as_, b :: bs =>
    if a.toNat < b.toNat then .lt
    else if b.toNat < a.toNat then .gt
    else cmpCharList as_ bs

/-- Rust `str::cmp` (lexicographic; byte order and codepoint order agree
on valid UTF-8). -/
def cmpStr (a b : String) : Ordering :=
  cmpCharList a.data b.data

/-- Derived `Ord::cmp` of `SortBy`: discriminants first
(`Deadline < Priority < Status < Title`), then payloads, with the
`cmp::Reverse` wrapper flipping the `Deadline` and `Priority` payload
comparison (`Reverse(a).cmp(Reverse(b)) = b.cmp(a)`). -/
def SortBy.cmp : SortBy → SortBy → Ordering
  | .deadlineKey a, .deadlineKey b => cmpOptInt b a
  | .deadlineKey _, _ => .lt
  | .priorityKey _, .deadlineKey _ => .gt
  | .priorityKey a, .priorityKey b => cmpNat b.toNat a.toNat
  | .priorityKey _, _ => .lt
  | .statusKey a, .statusKey b => cmpNat a.toNat b.toNat
  | .statusKey _, .titleKey _ => .lt
  | .statusKey _, _ => .gt
  | .titleKey a, .titleKey b => cmpStr a b
  | .titleKey _, _ => .gt

/-- The non-strict order induced by the derived `Ord` (`x <= y` in Rust is
`x.cmp(&y) != Greater`). -/
def SortBy.le (x y : SortBy) : Prop := x.cmp y ≠ .gt

instance : DecidableRel SortBy.le := fun x y =>
  inferInstanceAs (Decidable (x.cmp y ≠ .gt))

/-- `SortBy::from`: derives the per-record key for the requested sort
dimension (default: ascending by title). -/
def SortBy.fromQuerySort (qs : Option QuerySort) (t : Todo) : SortBy :=
  match qs with
  | some .priority => .priorityKey t.priority
  | some .status => .statusKey t.status
  | some .deadline => .deadlineKey t.deadline
  | none => .titleKey t.title

/-! ### Order facts for the key comparison -/

theorem cmpInt_gt_iff {a b : Int} : cmpInt a b = .gt ↔ b < a := by
  unfold cmpInt
  split
  · constructor
    · intro h
      exact absurd h (by simp)
    · omega
  · split
    · simp_all
    · constructor
      · intro h
        exact absurd h (by simp)
      · omega

theorem cmpNat_gt_iff {a b : Nat} : cmpNat a b = .gt ↔ b < a := by
  unfold cmpNat
  split
  · constructor
    · intro h
      exact absurd h (by simp)
    · omega
  · split
    · simp_all
    · constructor
      · intro h
        exact absurd h (by simp)
      · omega

theorem cmpOptInt_gt_iff {a b : Option Int} :
    cmpOptInt a b = .gt ↔
      (∃ x, a = some x ∧ b = none) ∨
        (∃ x y, a = some x ∧ b = some y ∧ y < x) := by
  cases a <;> cases b <;> simp [cmpOptInt, cmpInt_gt_iff]

theorem cmpInt_eq_iff {a b : Int} : cmpInt a b = .eq ↔ a = b := by
  unfold cmpInt
  split
  · constructor
    · intro h
      exact absurd h (by simp)
    · omega
  · split
    · constructor
      · intro h
        exact absurd h (by simp)
      · omega
    · constructor
      · intro _
        omega
      · intro _
        rfl

theorem cmpNat_eq_iff {a b : Nat} : cmpNat a b = .eq ↔ a = b := by
  unfold cmpNat
  split
  · constructor
    · intro h
      exact absurd h (by simp)
    · omega
  · split
    · constructor
      · intro h
        exact absurd h (by simp)
      · omega
    · constructor
      · intro _
        omega
      · intro _
        rfl

theorem cmpOptInt_eq_iff {a b : Option Int} :
    cmpOptInt a b = .eq ↔ a = b := by
  cases a <;> cases b <;> simp [cmpOptInt, cmpInt_eq_iff]

theorem cmpInt_not_gt_trans {a b c : Int} (h1 : cmpInt a b ≠ .gt)
    (h2 : cmpInt b c ≠ .gt) : cmpInt a c ≠ .gt := by
  rw [Ne, cmpInt_gt_iff] at *
  omega

theorem cmpNat_not_gt_trans {a b c : Nat} (h1 : cmpNat a b ≠ .gt)
    (h2 : cmpNat b c ≠ .gt) : cmpNat a c ≠ .gt := by
  rw [Ne, cmpNat_gt_iff] at *
  omega

theorem charToNat_inj {a b : Char} (h : a.toNat = b.toNat) : a = b :=
  Char.ext (UInt32.toNat.inj h)

theorem cmpCharList_not_gt_trans (xs : List Char) : ∀ ys zs,
    cmpCharList xs ys ≠ .gt → cmpCharList ys zs ≠ .gt →
    cmpCharList xs zs ≠ .gt := by
  induction xs with
  | nil =>
    intro ys zs _ _
    cases zs <;> simp [cmpCharList]
  | cons a as_ ih =>
    intro ys zs h1 h2
    cases ys with
    | nil => simp [cmpCharList] at h1
    | cons b bs =>
      cases zs with
      | nil => simp [cmpCharList] at h2
      | cons c cs =>
        simp only [cmpCharList] at h1 h2 ⊢
        by_cases hab : a.toNat < b.toNat
        · by_cases hbc : b.toNat < c.toNat
          · rw [if_pos (by omega)]
            simp
          · rw [if_neg hbc] at h2
            by_cases hcb : c.toNat < b.toNat
            · rw [if_pos hcb] at h2
              exact absurd rfl h2
            · rw [if_pos (by omega)]
              simp
        · rw [if_neg hab] at h1
          by_cases hba : b.toNat < a.toNat
          · rw [if_pos hba] at h1
            exact absurd rfl h1
          · rw [if_neg hba] at h1
            by_cases hbc : b.toNat < c.toNat
            · rw [if_pos (by omega)]
              simp
            · rw [if_neg hbc] at h2
              by_cases hcb : c.toNat < b.toNat
              · rw [if_pos hcb] at h2
                exact absurd rfl h2
              · rw [if_neg hcb] at h2
                rw [if_neg (by omega), if_neg (by omega)]
                exact ih bs cs h1 h2

theorem cmpCharList_gt_asymm (xs : List Char) : ∀ ys,
    cmpCharList xs ys = .gt → cmpCharList ys xs ≠ .gt := by
  induction xs with
  | nil =>
    intro ys h
    cases ys <;> simp [cmpCharList] at h
  | cons a as_ ih =>
    intro ys h
    cases ys with
    | nil => simp [cmpCharList]
    | cons b bs =>
      simp only [cmpCharList] at h ⊢
      by_cases hab : a.toNat < b.toNat
      · rw [if_pos hab] at h
        exact absurd h (by simp)
      · rw [if_neg hab] at h
        by_cases hba : b.toNat < a.toNat
        · rw [if_pos hba]
          simp
        · rw [if_neg hba] at h
          rw [if_neg hba, if_neg hab]
          exact ih bs h

theorem cmpCharList_antisymm (xs : List Char) : ∀ ys,
    cmpCharList xs ys ≠ .gt → cmpCharList ys xs ≠ .gt → xs = ys := by
  induction xs with
  | nil =>
    intro ys h1 h2
    cases ys with
    | nil => rfl
    | cons b bs => simp [cmpCharList] at h2
  | cons a as_ ih =>
    intro ys h1 h2
    cases ys with
    | nil => simp [cmpCharList] at h1
    | cons b bs =>
      simp only [cmpCharList] at h1 h2
      by_cases hab : a.toNat < b.toNat
      · rw [if_neg (by omega), if_pos hab] at h2
        exact absurd rfl h2
      · rw [if_neg hab] at h1
        by_cases hba : b.toNat < a.toNat
        · rw [if_pos hba] at h1
          exact absurd rfl h1
        · rw [if_neg hba] at h1
          rw [if_neg hba, if_neg hab] at h2
          have hcc : a = b := charToNat_inj (by omega)
          subst hcc
          rw [ih bs h1 h2]

theorem cmpStr_not_gt_trans {a b c : String} (h1 : cmpStr a b ≠ .gt)
    (h2 : cmpStr b c ≠ .gt) : cmpStr a c ≠ .gt :=
  cmpCharList_not_gt_trans a.data b.data c.data h1 h2

theorem cmpOptInt_not_gt_trans {a b c : Option Int}
    (h1 : cmpOptInt a b ≠ .gt) (h2 : cmpOptInt b c ≠ .gt) :
    cmpOptInt a c ≠ .gt := by
  cases a <;> cases b <;> cases c <;>
    simp_all [cmpOptInt, Ne, cmpInt_gt_iff] <;> omega

theorem cmpInt_not_gt_total {a b : Int} (h : cmpInt a b = .gt) :
    cmpInt b a ≠ .gt := by
  rw [cmpInt_gt_iff] at h
  rw [Ne, cmpInt_gt_iff]
  omega

theorem cmpNat_not_gt_total {a b : Nat} (h : cmpNat a b = .gt) :
    cmpNat b a ≠ .gt := by
  rw [cmpNat_gt_iff] at h
  rw [Ne, cmpNat_gt_iff]
  omega

theorem cmpStr_not_gt_total {a b : String} (h : cmpStr a b = .gt) :
    cmpStr b a ≠ .gt :=
  cmpCharList_gt_asymm a.data b.data h

theorem cmpOptInt_not_gt_total {a b : Option Int}
    (h : cmpOptInt a b = .gt) : cmpOptInt b a ≠ .gt := by
  cases a <;> cases b <;> simp_all [cmpOptInt, Ne, cmpInt_gt_iff] <;> omega

theorem cmpInt_antisymm {a b : Int} (h1 : cmpInt a b ≠ .gt)
    (h2 : cmpInt b a ≠ .gt) : a = b := by
  rw [Ne, cmpInt_gt_iff] at *
  omega

theorem cmpNat_antisymm {a b : Nat} (h1 : cmpNat a b ≠ .gt)
    (h2 : cmpNat b a ≠ .gt) : a = b := by
  rw [Ne, cmpNat_gt_iff] at *
  omega

theorem cmpStr_antisymm {a b : String} (h1 : cmpStr a b ≠ .gt)
    (h2 : cmpStr b a ≠ .gt) : a = b := by
  cases a with
  | mk da =>
    cases b with
    | mk db =>
      exact congrArg String.mk (cmpCharList_antisymm da db h1 h2)

theorem cmpOptInt_antisymm {a b : Option Int} (h1 : cmpOptInt a b ≠ .gt)
    (h2 : cmpOptInt b a ≠ .gt) : a = b := by
  cases a <;> cases b <;> simp_all [cmpOptInt, Ne, cmpInt_gt_iff] <;> omega

theorem priorityToNat_inj {p q : Priority} (h : p.toNat = q.toNat) :
    p = q := by
  cases p <;> cases q <;> simp_all [Priority.toNat]

theorem statusToNat_inj {p q : Status} (h : p.toNat = q.toNat) :
    p = q := by
  cases p <;> cases q <;> simp_all [Status.toNat]

theorem SortBy.le_total_pair (x y : SortBy) : x.le y ∨ y.le x := by
  by_cases h : x.cmp y = .gt
  · right
    cases x <;> cases y <;> simp_all [SortBy.cmp, SortBy.le]
    · exact cmpOptInt_not_gt_total h
    · exact cmpNat_not_gt_total h
    · exact cmpNat_not_gt_total h
    · exact cmpStr_not_gt_total h
  · left
    exact h

theorem SortBy.le_trans_lemma {x y z : SortBy} (h1 : x.le y)
    (h2 : y.le z) : x.le z := by
  cases x <;> cases y <;> cases z <;> simp_all [SortBy.cmp, SortBy.le]
  · exact cmpOptInt_not_gt_trans h2 h1
  · exact cmpNat_not_gt_trans h2 h1
  · exact cmpNat_not_gt_trans h1 h2
  · exact cmpStr_not_gt_trans h1 h2

theorem SortBy.le_antisymm_lemma {x y : SortBy} (h1 : x.le y)
    (h2 : y.le x) : x = y := by
  cases x <;> cases y <;> simp_all [SortBy.cmp, SortBy.le]
  · exact cmpOptInt_antisymm h2 h1
  · exact priorityToNat_inj (cmpNat_antisymm h2 h1)
  · exact statusToNat_inj (cmpNat_antisymm h1 h2)
  · exact cmpStr_antisymm h1 h2

instance : IsTotal SortBy SortBy.le := ⟨SortBy.le_total_pair⟩

instance : IsTrans SortBy SortBy.le := ⟨fun _ _ _ => SortBy.le_trans_lemma⟩

instance : IsAntisymm SortBy SortBy.le :=
  ⟨fun _ _ => SortBy.le_antisymm_lemma⟩

/-! ## The store (src/lib/src/todos/mod.rs)

`TodoList(HashMap<Uuid, Todo>)`, modelled as the list of stored records in
iteration order.  Mutating operations return the operation result together
with the store contents after the call; every early `return`/`?` exit of
the Rust code corresponds to an arm returning the store as it stood at
that point. -/

abbrev TodoList : Type := List Todo

namespace TodoList

/-- `TodoList::count_all`. -/
def count_all (l : TodoList) : Nat := l.length

/-- `TodoList::filter_by`: lazily filters the stored values with the four
query predicates combined with AND. -/
def filter_by (l : TodoList) (q : Query) (deadline : Option UnixTime) :
    List Todo :=
  l.filter (fun t => q.matches deadline t)

/-- A maximal-key element of the heap together with the remaining
elements: the model of `BinaryHeap::peek_mut` (the crate does not specify
which maximal element is exposed when keys tie). -/
def peekSplit (key : Todo → SortBy) : List Todo → Option (Todo × List Todo)
  | [] => none
  | t :: ts =>
    match peekSplit key ts with
    | none => some (t, [])
    | some (m, rest) =>
      if (key t).cmp (key m) = .gt then some (t, ts)
      else some (m, t :: rest)

/-- The accumulation loop of `TodoList::search`: push while fewer than
`n` records were pushed, then replace the peeked (worst) element whenever
its key is strictly greater than the new record's key.  `none` models the
`unreachable!` panic branch (peek on an empty heap). -/
def searchLoop (key : Todo → SortBy) (n : Nat) (heap : List Todo) :
    List Todo → Option (List Todo)
  | [] => some heap
  | t :: ts =>
    if heap.length < n then searchLoop key n (t :: heap) ts
    else
      match peekSplit key heap with
      | some (m, rest) =>
        if (key m).cmp (key t) = .gt then searchLoop key n (t :: rest) ts
        else searchLoop key n heap ts
      | none => none

/-- `BinaryHeap::into_sorted_vec`: the heap contents in ascending key
order. -/
def sortedByKey (key : Todo → SortBy) (h : List Todo) : List Todo :=
  List.insertionSort (fun a b => (key a).le (key b)) h

/-- `TodoList::search`: resolve the deadline bound and the limit, filter,
run the bounded top-N loop, and return the survivors in ascending key
order.  `ok none` models the `unreachable!` panic. -/
def search (l : TodoList) (q : Query) :
    Except AppError (Option (List Todo)) :=
  match OptionalDeadlineInput.unixTime q.deadline with
  | .error e => .error e
  | .ok deadline =>
    let top_n := OptionalResultLimit.validated q.limit
    let key := SortBy.fromQuerySort q.sort
    match searchLoop key top_n [] (l.filter_by q deadline) with
    | some heap => .ok (some (sortedByKey key heap))
    | none => .ok none

/-- `TodoList::count_by`. -/
def count_by (l : TodoList) (q : Query) : Except AppError Nat :=
  match OptionalDeadlineInput.unixTime q.deadline with
  | .error e => .error e
  | .ok deadline => .ok (l.filter_by q deadline).length

/-- `TodoList::get`. -/
def get (l : TodoList) (id : Uuid) : Except AppError Todo :=
  match l.find? (fun t => t.id == id) with
  | some t => .ok t
  | none => .error (.todoNotFound id)

/-- `TodoList::delete`: `HashMap::remove` keyed by id. -/
def delete (l : TodoList) (id : Uuid) :
    Except AppError Unit × TodoList :=
  match l.find? (fun t => t.id == id) with
  | some _ => (.ok (), l.filter (fun t => t.id != id))
  | none => (.error (.todoNotFound id), l)

/-- `TodoList::delete_by`: retain the records the predicate rejects and
count the removed ones. -/
def delete_by (l : TodoList) (should_delete : Todo → Bool) :
    Nat × TodoList :=
  ((l.filter should_delete).length,
    l.filter (fun t => !should_delete t))

/-- `TodoList::delete_by_ids` (`Todo::is_in_id_set`); the `NESet` target
is modelled by its element list. -/
def delete_by_ids (l : TodoList) (targets : List Uuid) :
    Nat × TodoList :=
  l.delete_by (fun t => targets.contains t.id)

/-- `TodoList::delete_by_priorities` (`Todo::is_in_priority_set`). -/
def delete_by_priorities (l : TodoList) (targets : List Priority) :
    Nat × TodoList :=
  l.delete_by (fun t => targets.contains t.priority)

/-- `TodoList::delete_by_statuses` (`Todo::is_in_status_set`). -/
def delete_by_statuses (l : TodoList) (targets : List Status) :
    Nat × TodoList :=
  l.delete_by (fun t => targets.contains t.status)

/-- `TodoList::delete_by_status`: specialization to a single status. -/
def delete_by_status (l : TodoList) (target : Status) :
    Nat × TodoList :=
  l.delete_by_statuses [target]

/-- `TodoList::delete_all`. -/
def delete_all (l : TodoList) : Nat × TodoList :=
  (l.count_all, [])

/-- `TodoList::add`: resolve the deadline, then validate the title, then
insert a fresh record with status `Backlog` and both timestamps set to the
current time.  The fresh `Uuid::new_v4` identifier and the clock reading
are explicit arguments. -/
def add (l : TodoList) (item : NewTodo) (id : Uuid) (now : Int) :
    Except AppError Todo × TodoList :=
  match OptionalDeadlineInput.unixTime item.deadline with
  | .error e => (.error e, l)
  | .ok deadline =>
    match item.title.validated with
    | .error e => (.error e, l)
    | .ok title =>
      let todo : Todo :=
        { id := id, title := title, priority := item.priority,
          status := .backlog, created_timestamp := now,
          updated_timestamp := now, deadline := deadline }
      (.ok todo, todo :: l)

/-- Write back the record stored under `id` (`HashMap::get_mut`
mutation). -/
def setTodo (l : TodoList) (id : Uuid) (t : Todo) : TodoList :=
  l.map (fun u => if u.id == id then t else u)

/-- The field-by-field mutation sequence of `TodoList::update` on the
looked-up record: apply each present field only when its value differs
from the stored one, tracking the `modified` flag, and bump the update
timestamp exactly when the flag was set.  Returns the mutated record and
the flag. -/
def applyChange (todo0 : Todo) (titleUpd : Option String)
    (priorityUpd : Option Priority) (statusUpd : Option Status)
    (deadline_update : Option UnixTime) (now : Int) : Todo × Bool :=
  let s1 : Todo × Bool :=
    match titleUpd with
    | some tnew =>
      if todo0.title ≠ tnew then
        ({ todo0 with title := tnew }, true)
      else (todo0, false)
    | none => (todo0, false)
  let s2 : Todo × Bool :=
    match priorityUpd with
    | some p =>
      if s1.1.priority ≠ p then ({ s1.1 with priority := p }, true)
      else s1
    | none => s1
  let s3 : Todo × Bool :=
    match statusUpd with
    | some st =>
      if s2.1.status ≠ st then ({ s2.1 with status := st }, true)
      else s2
    | none => s2
  let s4 : Todo × Bool :=
    if s3.1.deadline ≠ deadline_update then
      ({ s3.1 with deadline := deadline_update }, true)
    else s3
  (if s4.2 then { s4.1 with updated_timestamp := now } else s4.1, s4.2)

/-- `TodoList::update`: reject an empty change set, resolve the deadline
field unconditionally, look up the target, validate and apply each present
field only when its value differs, and bump the update timestamp exactly
when some value changed.  Title validation precedes every field write, so
each error arm returns the store unchanged. -/
def update (l : TodoList) (id : Uuid) (change : UpdateTodo) (now : Int) :
    Except AppError Todo × TodoList :=
  if change.change_is_present then
    match OptionalDeadlineInput.unixTime change.deadline with
    | .error e => (.error e, l)
    | .ok deadline_update =>
      match l.find? (fun t => t.id == id) with
      | none => (.error (.todoNotFound id), l)
      | some todo0 =>
        match (match change.title with
               | some tu => Except.map some tu.validated
               | none => .ok none) with
        | .error e => (.error e, l)
        | .ok titleUpd =>
          let final : Todo := (applyChange todo0 titleUpd change.priority
            change.status deadline_update now).1
          (.ok final, l.setTodo id final)
  else (.error .updateHasNoChanges, l)

end TodoList

deriving instance DecidableEq for Except

/-! ## Properties of the key order -/

theorem SortBy.le_refl (x : SortBy) : x.le x :=
  (SortBy.le_total_pair x x).elim id id

theorem SortBy.le_of_gt {x y : SortBy} (h : x.cmp y = .gt) : y.le x :=
  (SortBy.le_total_pair x y).resolve_left (by simp [SortBy.le, h])

theorem SortBy.le_of_not_gt {x y : SortBy} (h : ¬ x.cmp y = .gt) :
    x.le y := h

/-! ## Properties of the heap model -/

namespace TodoList

theorem peekSplit_eq_none_iff {key : Todo → SortBy} {l : List Todo} :
    peekSplit key l = none ↔ l = [] := by
  induction l with
  | nil => simp [peekSplit]
  | cons t ts ih =>
    simp only [peekSplit]
    cases h : peekSplit key ts with
    | none => simp
    | some p =>
      obtain ⟨m, rest⟩ := p
      by_cases hc : (key t).cmp (key m) = .gt <;> simp [hc]

theorem peekSplit_perm {key : Todo → SortBy} {l : List Todo} {m : Todo}
    {rest : List Todo} (h : peekSplit key l = some (m, rest)) :
    (m :: rest).Perm l := by
  induction l generalizing m rest with
  | nil => simp [peekSplit] at h
  | cons t ts ih =>
    simp only [peekSplit] at h
    split at h
    · rename_i hp
      obtain rfl : ts = [] := peekSplit_eq_none_iff.mp hp
      simp only [Option.some.injEq, Prod.mk.injEq] at h
      obtain ⟨rfl, rfl⟩ := h
      exact List.Perm.refl _
    · rename_i m0 rest0 hp
      split at h
      · rename_i hc
        simp only [Option.some.injEq, Prod.mk.injEq] at h
        obtain ⟨rfl, rfl⟩ := h
        exact List.Perm.refl _
      · rename_i hc
        simp only [Option.some.injEq, Prod.mk.injEq] at h
        obtain ⟨rfl, rfl⟩ := h
        exact (List.Perm.swap t m0 rest0).trans ((ih hp).cons t)

theorem peekSplit_max {key : Todo → SortBy} {l : List Todo} {m : Todo}
    {rest : List Todo} (h : peekSplit key l = some (m, rest)) :
    ∀ x ∈ l, (key x).le (key m) := by
  induction l generalizing m rest with
  | nil => simp [peekSplit] at h
  | cons t ts ih =>
    simp only [peekSplit] at h
    split at h
    · rename_i hp
      obtain rfl : ts = [] := peekSplit_eq_none_iff.mp hp
      simp only [Option.some.injEq, Prod.mk.injEq] at h
      obtain ⟨rfl, rfl⟩ := h
      intro x hx
      simp only [List.mem_singleton] at hx
      subst hx
      exact SortBy.le_refl _
    · rename_i m0 rest0 hp
      split at h
      · rename_i hc
        simp only [Option.some.injEq, Prod.mk.injEq] at h
        obtain ⟨rfl, rfl⟩ := h
        intro x hx
        rcases List.mem_cons.mp hx with rfl | hx
        · exact SortBy.le_refl _
        · exact SortBy.le_trans_lemma (ih hp x hx) (SortBy.le_of_gt hc)
      · rename_i hc
        simp only [Option.some.injEq, Prod.mk.injEq] at h
        obtain ⟨rfl, rfl⟩ := h
        intro x hx
        rcases List.mem_cons.mp hx with rfl | hx
        · exact SortBy.le_of_not_gt hc
        · exact ih hp x hx

/-- The bounded top-N selection property: `heap` holds `min n (size of
pool)` elements of `pool` and every element left out is at least (in key
order) every element kept. -/
def SelectsBottom (key : Todo → SortBy) (n : Nat)
    (heap pool : List Todo) : Prop :=
  ∃ rest, (heap ++ rest).Perm pool ∧
    heap.length = min n pool.length ∧
    ∀ y ∈ heap, ∀ x ∈ rest, (key y).le (key x)

theorem SelectsBottom.perm_pool {key : Todo → SortBy} {n : Nat}
    {heap pool pool' : List Todo} (h : SelectsBottom key n heap pool)
    (hp : pool.Perm pool') : SelectsBottom key n heap pool' := by
  obtain ⟨rest, h1, h2, h3⟩ := h
  exact ⟨rest, h1.trans hp, by rw [h2, hp.length_eq], h3⟩

theorem searchLoop_spec (key : Todo → SortBy) (n : Nat) (hn : 0 < n) :
    ∀ (ts heap disc : List Todo),
      heap.length ≤ n →
      (∀ y ∈ heap, ∀ x ∈ disc, (key y).le (key x)) →
      (heap.length = n ∨ disc = []) →
      ∃ H, searchLoop key n heap ts = some H ∧
        SelectsBottom key n H (heap ++ (ts ++ disc)) := by
  intro ts
  induction ts with
  | nil =>
    intro heap disc hlen hcross hfull
    refine ⟨heap, rfl, ⟨disc, by simp, ?_, hcross⟩⟩
    rcases hfull with hfull | rfl
    · simp only [List.nil_append, List.length_append]
      omega
    · simp only [List.nil_append, List.append_nil, List.length_append,
        List.length_nil]
      omega
  | cons t ts ih =>
    intro heap disc hlen hcross hfull
    by_cases hroom : heap.length < n
    · obtain rfl : disc = [] := by
        rcases hfull with hfull | rfl
        · omega
        · rfl
      obtain ⟨H, hH, hSB⟩ := ih (t :: heap) []
        (by simp only [List.length_cons]; omega) (by simp) (Or.inr rfl)
      refine ⟨H, ?_, ?_⟩
      · simpa [searchLoop, hroom] using hH
      · refine hSB.perm_pool ?_
        simp only [List.append_nil, List.cons_append]
        exact (@List.perm_middle _ t heap ts).symm
    · have hfull' : heap.length = n := by omega
      have hne : heap ≠ [] := by
        intro h
        subst h
        simp only [List.length_nil] at hfull'
        omega
      cases hp : peekSplit key heap with
      | none => exact absurd (peekSplit_eq_none_iff.mp hp) hne
      | some p =>
        obtain ⟨m, rest⟩ := p
        have hperm := peekSplit_perm hp
        have hmax := peekSplit_max hp
        have hrest_len : rest.length + 1 = heap.length := by
          simpa using hperm.length_eq
        by_cases hc : (key m).cmp (key t) = .gt
        · obtain ⟨H, hH, hSB⟩ := ih (t :: rest) (m :: disc)
            (by simp only [List.length_cons]; omega)
            (by intro y hy x hx
                rcases List.mem_cons.mp hy with rfl | hy <;>
                  rcases List.mem_cons.mp hx with rfl | hx
                · exact SortBy.le_of_gt hc
                · exact SortBy.le_trans_lemma (SortBy.le_of_gt hc)
                    (hcross m (hperm.mem_iff.mp (by simp)) x hx)
                · exact hmax y (hperm.mem_iff.mp (by simp [hy]))
                · exact hcross y (hperm.mem_iff.mp (by simp [hy])) x hx)
            (Or.inl (by simp only [List.length_cons]; omega))
          refine ⟨H, ?_, ?_⟩
          · simpa [searchLoop, hroom, hp, hc] using hH
          · refine hSB.perm_pool ?_
            have l1 : (ts ++ m :: disc).Perm (m :: (ts ++ disc)) :=
              @List.perm_middle _ m ts disc
            have l2 : (rest ++ (ts ++ m :: disc)).Perm
                (rest ++ (m :: (ts ++ disc))) := l1.append_left rest
            have l3 : (rest ++ (m :: (ts ++ disc))).Perm
                (m :: (rest ++ (ts ++ disc))) :=
              @List.perm_middle _ m rest (ts ++ disc)
            have lleft : ((t :: rest) ++ ((t :: ts).tail ++ m :: disc)).Perm
                (t :: (m :: (rest ++ (ts ++ disc)))) := by
              simp only [List.cons_append, List.tail_cons]
              exact (l2.trans l3).cons t
            have r1 : (rest ++ (t :: (ts ++ disc))).Perm
                (t :: (rest ++ (ts ++ disc))) :=
              @List.perm_middle _ t rest (ts ++ disc)
            have rright : (heap ++ ((t :: ts) ++ disc)).Perm
                (m :: (t :: (rest ++ (ts ++ disc)))) := by
              refine ((hperm.symm.append_right _).trans ?_)
              simp only [List.cons_append]
              exact (r1.cons m)
            simp only [List.tail_cons] at lleft
            exact lleft.trans
              ((List.Perm.swap m t _).trans rright.symm)
        · obtain ⟨H, hH, hSB⟩ := ih heap (t :: disc)
            hlen
            (by intro y hy x hx
                rcases List.mem_cons.mp hx with rfl | hx
                · exact SortBy.le_trans_lemma (hmax y hy)
                    (SortBy.le_of_not_gt hc)
                · exact hcross y hy x hx)
            (Or.inl hfull')
          refine ⟨H, ?_, ?_⟩
          · simpa [searchLoop, hroom, hp, hc] using hH
          · refine hSB.perm_pool ?_
            refine List.Perm.append_left heap ?_
            simpa using @List.perm_middle _ t ts disc

instance instKeyRelDec (key : Todo → SortBy) :
    DecidableRel (fun a b : Todo => (key a).le (key b)) := fun a b =>
  inferInstanceAs (Decidable ((key a).le (key b)))

instance instKeyRelTotal (key : Todo → SortBy) :
    IsTotal Todo (fun a b : Todo => (key a).le (key b)) :=
  ⟨fun a b => SortBy.le_total_pair (key a) (key b)⟩

instance instKeyRelTrans (key : Todo → SortBy) :
    IsTrans Todo (fun a b : Todo => (key a).le (key b)) :=
  ⟨fun _ _ _ => SortBy.le_trans_lemma⟩

theorem sortedByKey_perm (key : Todo → SortBy) (h : List Todo) :
    (sortedByKey key h).Perm h :=
  List.perm_insertionSort _ h

theorem sortedByKey_sorted (key : Todo → SortBy) (h : List Todo) :
    List.Sorted (fun a b => (key a).le (key b)) (sortedByKey key h) :=
  List.sorted_insertionSort _ h

/-- Putting the selection in ascending key order yields, at the level of
key sequences, exactly the first `n` records of the key-sorted pool. -/
theorem selectsBottom_key_eq {key : Todo → SortBy} {n : Nat}
    {H P : List Todo} (hSB : SelectsBottom key n H P) :
    (sortedByKey key H).map key =
      ((sortedByKey key P).take n).map key ∧
    (sortedByKey key H).length = min n P.length ∧
    (∀ t ∈ sortedByKey key H, t ∈ P) := by
  obtain ⟨rest, hperm, hlen, hcross⟩ := hSB
  have hA := sortedByKey_sorted key H
  have hB := sortedByKey_sorted key rest
  have hAp := sortedByKey_perm key H
  have hBp := sortedByKey_perm key rest
  have hcross' : ∀ a ∈ sortedByKey key H, ∀ b ∈ sortedByKey key rest,
      (key a).le (key b) := fun a ha b hb =>
    hcross a (hAp.mem_iff.mp ha) b (hBp.mem_iff.mp hb)
  have hABsorted : List.Sorted (fun a b => (key a).le (key b))
      (sortedByKey key H ++ sortedByKey key rest) :=
    List.pairwise_append.mpr ⟨hA, hB, hcross'⟩
  have hABperm : (sortedByKey key H ++ sortedByKey key rest).Perm
      (sortedByKey key P) :=
    ((hAp.append hBp).trans hperm).trans (sortedByKey_perm key P).symm
  have hP := sortedByKey_sorted key P
  have hs1 : List.Sorted SortBy.le
      ((sortedByKey key H ++ sortedByKey key rest).map key) :=
    List.Pairwise.map key (fun _ _ hab => hab) hABsorted
  have hs2 : List.Sorted SortBy.le ((sortedByKey key P).map key) :=
    List.Pairwise.map key (fun _ _ hab => hab) hP
  have EQ : (sortedByKey key H ++ sortedByKey key rest).map key =
      (sortedByKey key P).map key :=
    @List.eq_of_perm_of_sorted SortBy SortBy.le _ _ _
      (hABperm.map key) hs1 hs2
  have hlenA : (sortedByKey key H).length = H.length := hAp.length_eq
  refine ⟨?_, by rw [hlenA, hlen], fun t ht =>
    hperm.mem_iff.mp (List.mem_append.mpr (Or.inl (hAp.mem_iff.mp ht)))⟩
  rw [List.map_take, ← EQ, List.map_append]
  rcases Nat.le_total n P.length with hcase | hcase
  · have hn : (List.map key (sortedByKey key H)).length = n := by
      rw [List.length_map, hlenA, hlen]
      omega
    rw [← hn, List.take_left]
  · have h1 : H.length + rest.length = P.length := by
      simpa using hperm.length_eq
    have h2 : rest.length = 0 := by
      rw [hlen] at h1
      omega
    have hBnil : sortedByKey key rest = [] := by
      have := hBp.length_eq
      rw [h2] at this
      exact List.length_eq_zero.mp this
    rw [hBnil]
    simp only [List.map_nil, List.append_nil]
    refine (List.take_of_length_le ?_).symm
    rw [List.length_map, hlenA, hlen]
    omega

/-- The resolved result limit is always at least one. -/
theorem validated_pos (l : OptionalResultLimit) :
    1 ≤ OptionalResultLimit.validated l := by
  cases l with
  | none => simp [OptionalResultLimit.validated, QUERY_DEFAULT_LIMIT]
  | some n =>
    simp only [OptionalResultLimit.validated, QUERY_MAX_LIMIT,
      QUERY_DEFAULT_LIMIT]
    split
    · omega
    · split <;> omega

/-- Successful deadline resolution makes `search` succeed with the sorted
contents of a heap satisfying the bounded-selection property. -/
theorem search_eq {l : TodoList} {q : Query} {dl : Option UnixTime}
    (hdl : OptionalDeadlineInput.unixTime q.deadline = .ok dl) :
    ∃ H, searchLoop (SortBy.fromQuerySort q.sort)
        (OptionalResultLimit.validated q.limit) []
        (l.filter_by q dl) = some H ∧
      search l q = .ok (some (sortedByKey (SortBy.fromQuerySort q.sort) H)) ∧
      SelectsBottom (SortBy.fromQuerySort q.sort)
        (OptionalResultLimit.validated q.limit) H (l.filter_by q dl) := by
  have hn := validated_pos q.limit
  obtain ⟨H, hH, hSB⟩ := searchLoop_spec (SortBy.fromQuerySort q.sort)
    (OptionalResultLimit.validated q.limit) (by omega)
    (l.filter_by q dl) [] [] (by simp) (by simp) (Or.inr rfl)
  refine ⟨H, hH, ?_, by simpa using hSB⟩
  unfold TodoList.search
  rw [hdl]
  simp only
  rw [hH]


/-- Inversion of a successful search: the deadline bound resolved and the
result is the sorted contents of a heap with the selection property. -/
theorem search_ok_inv {l : TodoList} {q : Query} {r : List Todo}
    (h : search l q = .ok (some r)) :
    ∃ dl, OptionalDeadlineInput.unixTime q.deadline = .ok dl ∧
      ∃ H, SelectsBottom (SortBy.fromQuerySort q.sort)
          (OptionalResultLimit.validated q.limit) H (l.filter_by q dl) ∧
        r = sortedByKey (SortBy.fromQuerySort q.sort) H := by
  cases hdl : OptionalDeadlineInput.unixTime q.deadline with
  | error e =>
    unfold TodoList.search at h
    rw [hdl] at h
    simp at h
  | ok dl =>
    obtain ⟨H, _, hs, hSB⟩ := search_eq hdl
    rw [hs] at h
    simp only [Except.ok.injEq, Option.some.injEq] at h
    exact ⟨dl, rfl, H, hSB, h.symm⟩

/-- The length of any successful search result is bounded by the resolved
limit. -/
theorem search_ok_length {l : TodoList} {q : Query} {r : List Todo}
    (h : search l q = .ok (some r)) :
    r.length ≤ OptionalResultLimit.validated q.limit := by
  obtain ⟨dl, _, H, hSB, rfl⟩ := search_ok_inv h
  obtain ⟨-, hlen, -⟩ := selectsBottom_key_eq hSB
  rw [hlen]
  exact Nat.min_le_left _ _

end TodoList

/-- The filter-sort-take specification of search, written from the spec
text: filter all stored records with the four predicates, sort the
filtered set ascending by the derived sort key, and take the first
resolved-limit elements. -/
def naiveSearch (l : TodoList) (q : Query) (dl : Option UnixTime) :
    List Todo :=
  (TodoList.sortedByKey (SortBy.fromQuerySort q.sort)
    (TodoList.filter_by l q dl)).take
    (OptionalResultLimit.validated q.limit)

/-- The four-predicate conjunction as worded by the spec: an unset
keyword, priority, status or deadline filter matches every record; a set
keyword matches exactly the records whose title contains it as a
substring; set priority and status filters match by exact equality; a set
deadline upper bound is satisfied by every record with no deadline and by
records whose deadline is at most the bound. -/
def specMatches (q : Query) (b : Option UnixTime) (t : Todo) : Bool :=
  (match q.keyword with
   | none => true
   | some k => strContains t.title k) &&
  (match q.priority with
   | none => true
   | some p => p == t.priority) &&
  (match q.status with
   | none => true
   | some s => s == t.status) &&
  (match b, t.deadline with
   | none, _ => true
   | some _, none => true
   | some bb, some d => d ≤ bb)

theorem specMatches_eq_matches (q : Query) (b : Option UnixTime)
    (t : Todo) : specMatches q b t = q.matches b t := by
  unfold specMatches Query.matches Query.matchKeyword Query.matchPriority
    Query.matchStatus Query.matchDeadline
  cases q.keyword <;> cases q.priority <;> cases q.status <;> cases b <;>
    cases t.deadline <;> rfl

/-- C1: for every store state and every query whose deadline bound parses
(the limit always resolves on the modelled 64-bit platform), `search`
succeeds and returns exactly the records of the naive
filter-sort-take-min(limit, matches) specification up to ties in the
derived key: the key sequences agree, the length is
`min (resolved limit) (number of matches)`, and every returned record is a
matching record. -/
theorem c1_search_equals_filter_sort_take (l : TodoList) (q : Query)
    (dl : Option UnixTime)
    (hdl : OptionalDeadlineInput.unixTime q.deadline = .ok dl) :
    ∃ r, TodoList.search l q = .ok (some r) ∧
      r.map (SortBy.fromQuerySort q.sort) =
        (naiveSearch l q dl).map (SortBy.fromQuerySort q.sort) ∧
      r.length = min (OptionalResultLimit.validated q.limit)
        (TodoList.filter_by l q dl).length ∧
      ∀ t ∈ r, t ∈ TodoList.filter_by l q dl := by
  obtain ⟨H, _, hs, hSB⟩ := TodoList.search_eq hdl
  obtain ⟨h1, h2, h3⟩ := TodoList.selectsBottom_key_eq hSB
  exact ⟨_, hs, by simpa [naiveSearch] using h1, h2, h3⟩

/-! ## Concrete fixtures used by witnesses and counterexamples -/

def exTodoA : Todo :=
  { id := 1, title := "a", priority := .low, status := .backlog,
    created_timestamp := 0, updated_timestamp := 0, deadline := some 100 }

def exTodoB : Todo :=
  { id := 2, title := "b", priority := .low, status := .backlog,
    created_timestamp := 0, updated_timestamp := 0, deadline := some 200 }

def exStore : TodoList := [exTodoA, exTodoB]

def exDeadlineQuery : Query :=
  { keyword := none, priority := none, status := none,
    deadline := some "2022-01-01 09", sort := some .deadline,
    limit := some 1 }

/-- Witness for C1 on a concrete store and query (limit 1, deadline bound
given as a parse-checked string). -/
theorem c1_search_equals_filter_sort_take_witness :
    ∃ r, TodoList.search exStore exDeadlineQuery = .ok (some r) ∧
      r.map (SortBy.fromQuerySort exDeadlineQuery.sort) =
        (naiveSearch exStore exDeadlineQuery (some 1641027600)).map
          (SortBy.fromQuerySort exDeadlineQuery.sort) ∧
      r.length = min
        (OptionalResultLimit.validated exDeadlineQuery.limit)
        (TodoList.filter_by exStore exDeadlineQuery
          (some 1641027600)).length ∧
      ∀ t ∈ r, t ∈ TodoList.filter_by exStore exDeadlineQuery
        (some 1641027600) :=
  c1_search_equals_filter_sort_take exStore exDeadlineQuery
    (some 1641027600) (by decide)

def exTodoN : Todo :=
  { id := 3, title := "c", priority := .low, status := .backlog,
    created_timestamp := 0, updated_timestamp := 0, deadline := none }

def exDeadlineSortQuery : Query :=
  { keyword := none, priority := none, status := none, deadline := none,
    sort := some .deadline, limit := none }

/-- C2: evaluation of `search` with the `Deadline` sort dimension on a
store holding deadlines 100 and 200 (plus one record without a deadline):
whatever the iteration order, the record with the larger deadline is
returned first, i.e. the output is ordered descending by deadline value
(records without a deadline do come last).  This contradicts the claimed
ascending order — and the repository's own test
`todolist_search_should_sort_todos_by_deadline_in_ascending_order` — and
comes from the `cmp::Reverse` wrapper in `SortBy::Deadline`. -/
theorem c2_deadline_sort_descends :
    TodoList.search [exTodoA, exTodoB] exDeadlineSortQuery =
      .ok (some [exTodoB, exTodoA]) ∧
    TodoList.search [exTodoB, exTodoA] exDeadlineSortQuery =
      .ok (some [exTodoB, exTodoA]) ∧
    TodoList.search [exTodoN, exTodoA, exTodoB] exDeadlineSortQuery =
      .ok (some [exTodoB, exTodoA, exTodoN]) ∧
    exTodoA.deadline = some 100 ∧ exTodoB.deadline = some 200 ∧
    exTodoN.deadline = none :=
  ⟨by decide, by decide, by decide, rfl, rfl, rfl⟩

/-- C10: the resolved result limit is at least 1 for every query, and
`search` never reaches the `unreachable!` branch (modelled as `ok none`):
whenever the candidate count has reached the limit the heap is non-empty,
so the peek always succeeds. -/
theorem c10_search_never_panics (l : TodoList) (q : Query) :
    1 ≤ OptionalResultLimit.validated q.limit ∧
      TodoList.search l q ≠ .ok none := by
  refine ⟨TodoList.validated_pos q.limit, ?_⟩
  cases hdl : OptionalDeadlineInput.unixTime q.deadline with
  | error e =>
    unfold TodoList.search
    rw [hdl]
    simp
  | ok dl =>
    obtain ⟨H, _, hs, _⟩ := TodoList.search_eq hdl
    rw [hs]
    simp

/-- C3: for every store state and every query whose deadline bound
parses, `count_by` returns exactly the number of stored records matching
the four-predicate conjunction (as worded by the spec), and `search`
returns only such records. -/
theorem c3_count_by_and_search_filter (l : TodoList) (q : Query)
    (dl : Option UnixTime)
    (hdl : OptionalDeadlineInput.unixTime q.deadline = .ok dl) :
    TodoList.count_by l q =
      .ok (l.filter (fun t => specMatches q dl t)).length ∧
    ∀ r, TodoList.search l q = .ok (some r) →
      ∀ t ∈ r, specMatches q dl t = true := by
  constructor
  · unfold TodoList.count_by
    rw [hdl]
    simp only [TodoList.filter_by]
    simp [specMatches_eq_matches]
  · intro r hr t ht
    obtain ⟨dl', hdl', H, hSB, rfl⟩ := TodoList.search_ok_inv hr
    rw [hdl] at hdl'
    simp only [Except.ok.injEq] at hdl'
    subst hdl'
    obtain ⟨-, -, hmem⟩ := TodoList.selectsBottom_key_eq hSB
    have hmemf := hmem t ht
    rw [specMatches_eq_matches]
    simpa [TodoList.filter_by] using (List.mem_filter.mp hmemf).2

/-- Witness for C3 on a concrete store and a query with a parsed deadline
bound. -/
theorem c3_count_by_and_search_filter_witness :
    TodoList.count_by exStore exDeadlineQuery =
      .ok (exStore.filter
        (fun t => specMatches exDeadlineQuery (some 1641027600) t)).length ∧
    ∀ r, TodoList.search exStore exDeadlineQuery = .ok (some r) →
      ∀ t ∈ r, specMatches exDeadlineQuery (some 1641027600) t = true :=
  c3_count_by_and_search_filter exStore exDeadlineQuery
    (some 1641027600) (by decide)

def exNoLimitQuery : Query :=
  { keyword := none, priority := none, status := none, deadline := none,
    sort := none, limit := none }

/-- C4: the result-limit resolution clamps into 1..100 with default 10,
and consequently a successful search returns at most 10 results for an
unset limit, at most 100 for limit 200, and at most 10 for limit 0. -/
theorem c4_limit_resolution_and_bounds :
    OptionalResultLimit.validated none = 10 ∧
    (∀ n : Nat, n < 1 → OptionalResultLimit.validated (some n) = 10) ∧
    (∀ n : Nat, n > 100 → OptionalResultLimit.validated (some n) = 100) ∧
    (∀ n : Nat, 1 ≤ n → n ≤ 100 →
      OptionalResultLimit.validated (some n) = n) ∧
    (∀ (l : TodoList) (q : Query) (r : List Todo), q.limit = none →
      TodoList.search l q = .ok (some r) → r.length ≤ 10) ∧
    (∀ (l : TodoList) (q : Query) (r : List Todo), q.limit = some 200 →
      TodoList.search l q = .ok (some r) → r.length ≤ 100) ∧
    (∀ (l : TodoList) (q : Query) (r : List Todo), q.limit = some 0 →
      TodoList.search l q = .ok (some r) → r.length ≤ 10) := by
  refine ⟨rfl, ?_, ?_, ?_, ?_, ?_, ?_⟩
  · intro n h
    have h0 : n = 0 := by omega
    subst h0
    rfl
  · intro n h
    show (if n > 100 then 100 else if n < 1 then 10 else n) = 100
    rw [if_pos h]
  · intro n h1 h2
    show (if n > 100 then 100 else if n < 1 then 10 else n) = n
    rw [if_neg (by omega), if_neg (by omega)]
  · intro l q r hlim hr
    have := TodoList.search_ok_length hr
    rw [hlim] at this
    simpa [OptionalResultLimit.validated, QUERY_DEFAULT_LIMIT] using this
  · intro l q r hlim hr
    have := TodoList.search_ok_length hr
    rw [hlim] at this
    simpa [OptionalResultLimit.validated, QUERY_DEFAULT_LIMIT,
      QUERY_MAX_LIMIT] using this
  · intro l q r hlim hr
    have := TodoList.search_ok_length hr
    rw [hlim] at this
    simpa [OptionalResultLimit.validated, QUERY_DEFAULT_LIMIT,
      QUERY_MAX_LIMIT] using this

/-- Witness for C4: clamping evaluated on concrete limits and the search
bound applied to a concrete successful search. -/
theorem c4_limit_resolution_and_bounds_witness :
    OptionalResultLimit.validated (some 0) = 10 ∧
    OptionalResultLimit.validated (some 200) = 100 ∧
    OptionalResultLimit.validated (some 37) = 37 ∧
    ([exTodoA, exTodoB] : List Todo).length ≤ 10 :=
  ⟨c4_limit_resolution_and_bounds.2.1 0 (by decide),
   c4_limit_resolution_and_bounds.2.2.1 200 (by decide),
   c4_limit_resolution_and_bounds.2.2.2.1 37 (by decide) (by decide),
   c4_limit_resolution_and_bounds.2.2.2.2.1 exStore exNoLimitQuery
     [exTodoA, exTodoB] rfl (by decide)⟩

/-! ## Properties of the update mutation sequence -/

namespace TodoList

set_option maxHeartbeats 1600000 in
theorem applyChange_flag_false {todo0 : Todo} {tU : Option String}
    {pU : Option Priority} {sU : Option Status} {dU : Option UnixTime}
    {now : Int} (h : (applyChange todo0 tU pU sU dU now).2 = false) :
    (applyChange todo0 tU pU sU dU now).1 = todo0 := by
  rcases tU with _ | s <;> rcases pU with _ | p <;> rcases sU with _ | st <;>
    simp only [applyChange] at h ⊢ <;> split_ifs at h ⊢ <;> simp_all

set_option maxHeartbeats 1600000 in
theorem applyChange_flag_true {todo0 : Todo} {tU : Option String}
    {pU : Option Priority} {sU : Option Status} {dU : Option UnixTime}
    {now : Int} (h : (applyChange todo0 tU pU sU dU now).2 = true) :
    (applyChange todo0 tU pU sU dU now).1.updated_timestamp = now := by
  rcases tU with _ | s <;> rcases pU with _ | p <;> rcases sU with _ | st <;>
    simp only [applyChange] at h ⊢ <;> split_ifs at h ⊢ <;> simp_all

set_option maxHeartbeats 1600000 in
theorem applyChange_flag_iff (todo0 : Todo) (tU : Option String)
    (pU : Option Priority) (sU : Option Status) (dU : Option UnixTime)
    (now : Int) :
    (applyChange todo0 tU pU sU dU now).2 = true ↔
      ((∃ s, tU = some s ∧ s ≠ todo0.title) ∨
       (∃ p, pU = some p ∧ p ≠ todo0.priority) ∨
       (∃ st, sU = some st ∧ st ≠ todo0.status) ∨
       todo0.deadline ≠ dU) := by
  rcases tU with _ | s <;> rcases pU with _ | p <;> rcases sU with _ | st <;>
    simp only [applyChange] <;> split_ifs <;> simp_all [ne_comm]

set_option maxHeartbeats 1600000 in
theorem applyChange_fields (todo0 : Todo) (tU : Option String)
    (pU : Option Priority) (sU : Option Status) (dU : Option UnixTime)
    (now : Int) :
    (applyChange todo0 tU pU sU dU now).1.id = todo0.id ∧
    (applyChange todo0 tU pU sU dU now).1.created_timestamp =
      todo0.created_timestamp ∧
    ((applyChange todo0 tU pU sU dU now).1.updated_timestamp =
        todo0.updated_timestamp ∨
      (applyChange todo0 tU pU sU dU now).1.updated_timestamp = now) ∧
    ((applyChange todo0 tU pU sU dU now).1.title = todo0.title ∨
      ∃ s, tU = some s ∧ (applyChange todo0 tU pU sU dU now).1.title = s)
    := by
  rcases tU with _ | s <;> rcases pU with _ | p <;> rcases sU with _ | st <;>
    simp only [applyChange] <;> split_ifs <;> simp_all

theorem titleUpd_char {c : UpdateTodo} {tOpt : Option String}
    (hv : (match c.title with
           | some tu => Except.map some tu.validated
           | none => .ok none) = .ok tOpt) :
    (c.title = none ∧ tOpt = none) ∨
      (∃ tu s, c.title = some tu ∧ tu.validated = .ok s ∧
        tOpt = some s) := by
  cases hc : c.title with
  | none =>
    rw [hc] at hv
    have hv2 : (Except.ok (none : Option String) :
        Except AppError (Option String)) = Except.ok tOpt := hv
    simp only [Except.ok.injEq] at hv2
    exact Or.inl ⟨rfl, hv2.symm⟩
  | some tu =>
    rw [hc] at hv
    have hv2 : Except.map some tu.validated = Except.ok tOpt := hv
    cases hvv : tu.validated with
    | error e =>
      rw [hvv] at hv2
      simp [Except.map] at hv2
    | ok s =>
      rw [hvv] at hv2
      simp only [Except.map, Except.ok.injEq] at hv2
      exact Or.inr ⟨tu, s, rfl, hvv, hv2.symm⟩

end TodoList

/-- The claim's notion of a real value change: at least one supplied
field's resolved value differs from the stored value (the deadline field
is always resolved and compared). -/
def changeIsReal (c : UpdateTodo) (dl : Option UnixTime) (t : Todo) :
    Prop :=
  (∃ tu s, c.title = some tu ∧ tu.validated = .ok s ∧ s ≠ t.title) ∨
  (∃ p, c.priority = some p ∧ p ≠ t.priority) ∨
  (∃ st, c.status = some st ∧ st ≠ t.status) ∨
  t.deadline ≠ dl

/-- C5: in every update call with at least one field present, a deadline
string that fails to parse aborts the call with that `DateTimeParseError`
(before any lookup, hence even when the id is not stored), and a deadline
that resolves on an absent id fails with `TodoNotFound(id)`. -/
theorem c5_update_error_ordering (l : TodoList) (id : Uuid)
    (c : UpdateTodo) (now : Int)
    (hch : c.change_is_present = true) :
    (∀ e, OptionalDeadlineInput.unixTime c.deadline = .error e →
      TodoList.update l id c now = (.error e, l) ∧
      ∃ s f, e = .dateTimeParseError s f) ∧
    (∀ dl, OptionalDeadlineInput.unixTime c.deadline = .ok dl →
      (∀ t ∈ l, t.id ≠ id) →
      TodoList.update l id c now = (.error (.todoNotFound id), l)) := by
  constructor
  · intro e he
    constructor
    · simp only [TodoList.update, hch, if_true, he]
    · cases hd : c.deadline with
      | none =>
        rw [hd] at he
        simp [OptionalDeadlineInput.unixTime] at he
      | some s =>
        rw [hd] at he
        simp only [OptionalDeadlineInput.unixTime] at he
        split at he
        · simp at he
        · simp only [Except.error.injEq] at he
          exact ⟨s, USER_DATE_TIME_FORMAT, he.symm⟩
  · intro dl hdl hnot
    have hfind : l.find? (fun t => t.id == id) = none := by
      rw [List.find?_eq_none]
      intro t ht
      simpa using hnot t ht
    simp only [TodoList.update, hch, if_true, hdl, hfind]

/-- Witness for C5: an invalid deadline string on an empty store reports
the parse error, and a valid deadline string on an empty store reports
`TodoNotFound`. -/
theorem c5_update_error_ordering_witness :
    (TodoList.update [] 0 ⟨none, none, none, some "abc"⟩ 5 =
      (.error (.dateTimeParseError "abc" "%Y-%m-%d %H"), []) ∧
      ∃ s f, (AppError.dateTimeParseError "abc" "%Y-%m-%d %H") =
        .dateTimeParseError s f) ∧
    TodoList.update [] 0 ⟨none, none, none, some "2022-01-01 09"⟩ 5 =
      (.error (.todoNotFound 0), []) :=
  ⟨(c5_update_error_ordering [] 0 ⟨none, none, none, some "abc"⟩ 5
      rfl).1 _ (by decide),
   (c5_update_error_ordering [] 0
      ⟨none, none, none, some "2022-01-01 09"⟩ 5 rfl).2
      (some 1641027600) (by decide) (by simp)⟩

/-- C6: for a successful update of an existing record, the update
timestamp is bumped (to the supplied clock reading) exactly when at least
one supplied field's resolved value differs from the stored value;
supplying only values equal to the stored ones returns the record, and
its update timestamp, exactly unchanged.  Strict growth follows whenever
the clock reading exceeds the stored timestamp. -/
theorem c6_update_timestamp_change (l : TodoList) (id : Uuid)
    (c : UpdateTodo) (now : Int) (t' : Todo) (l' : TodoList)
    (todo0 : Todo) (dl : Option UnixTime)
    (hdl : OptionalDeadlineInput.unixTime c.deadline = .ok dl)
    (hfind : l.find? (fun t => t.id == id) = some todo0)
    (hupd : TodoList.update l id c now = (.ok t', l')) :
    (¬ changeIsReal c dl todo0 →
      t' = todo0 ∧ t'.updated_timestamp = todo0.updated_timestamp) ∧
    (changeIsReal c dl todo0 →
      t'.updated_timestamp = now ∧
      (todo0.updated_timestamp < now →
        todo0.updated_timestamp < t'.updated_timestamp)) := by
  by_cases hch : c.change_is_present = true
  · simp only [TodoList.update, hch, if_true, hdl, hfind] at hupd
    cases hv : (match c.title with
                | some tu => Except.map some tu.validated
                | none => .ok none) with
    | error e =>
      simp only [hv] at hupd
      simp at hupd
    | ok tOpt =>
      simp only [hv] at hupd
      simp only [Prod.mk.injEq, Except.ok.injEq] at hupd
      obtain ⟨ht, hl⟩ := hupd
      have hiff : (TodoList.applyChange todo0 tOpt c.priority c.status
          dl now).2 = true ↔ changeIsReal c dl todo0 := by
        rw [TodoList.applyChange_flag_iff]
        unfold changeIsReal
        rcases TodoList.titleUpd_char hv with ⟨hcn, rfl⟩ |
          ⟨tu, s, hcs, hvv, rfl⟩
        · simp [hcn]
        · simp [hcs, hvv]
      constructor
      · intro hnc
        have hf : (TodoList.applyChange todo0 tOpt c.priority c.status
            dl now).2 = false := by
          cases hA2 : (TodoList.applyChange todo0 tOpt c.priority
              c.status dl now).2
          · rfl
          · exact absurd (hiff.mp hA2) hnc
        have heq := TodoList.applyChange_flag_false hf
        rw [← ht, heq]
        exact ⟨rfl, rfl⟩
      · intro hcr
        have hf := hiff.mpr hcr
        have hts := TodoList.applyChange_flag_true hf
        rw [← ht, hts]
        exact ⟨rfl, fun hlt => hlt⟩
  · have hch' : c.change_is_present = false := by
      revert hch
      cases c.change_is_present <;> simp
    simp only [TodoList.update, hch'] at hupd
    simp at hupd

def exChangePriority : UpdateTodo := ⟨none, some .high, none, none⟩

def exTodoAHigh : Todo :=
  { id := 1, title := "a", priority := .high, status := .backlog,
    created_timestamp := 0, updated_timestamp := 5, deadline := none }

/-- Witness for C6: updating the stored low-priority record to high
priority (with the deadline field absent, which clears the stored
deadline) is a real value change, so the update timestamp becomes the
supplied clock reading. -/
theorem c6_update_timestamp_change_witness :
    (¬ changeIsReal exChangePriority none exTodoA →
      exTodoAHigh = exTodoA ∧
      exTodoAHigh.updated_timestamp = exTodoA.updated_timestamp) ∧
    (changeIsReal exChangePriority none exTodoA →
      exTodoAHigh.updated_timestamp = 5 ∧
      (exTodoA.updated_timestamp < 5 →
        exTodoA.updated_timestamp < exTodoAHigh.updated_timestamp)) :=
  c6_update_timestamp_change [exTodoA] 1 exChangePriority 5 exTodoAHigh
    [exTodoAHigh] exTodoA none (by decide) (by decide) (by decide)

/-- C7: `add` resolves the deadline before validating the title, so a
failing deadline string aborts with its `DateTimeParseError` for every
title, including invalid ones; with the deadline resolved, a title that is
empty after trimming fails with `EmptyTodoTitle`, and a trimmed title
whose byte length exceeds `MAX_LEN` (30) fails with `TooLongTodoTitle`
carrying that maximum as `expected_len`. -/
theorem c7_add_validation_order (l : TodoList) (item : NewTodo)
    (id : Uuid) (now : Int) :
    Title.MAX_LEN = 30 ∧
    (∀ e, OptionalDeadlineInput.unixTime item.deadline = .error e →
      TodoList.add l item id now = (.error e, l)) ∧
    (∀ dl raw, OptionalDeadlineInput.unixTime item.deadline = .ok dl →
      item.title = Title.new raw → strTrim raw = "" →
      TodoList.add l item id now = (.error .emptyTodoTitle, l)) ∧
    (∀ dl raw, OptionalDeadlineInput.unixTime item.deadline = .ok dl →
      item.title = Title.new raw →
      (strTrim raw).utf8ByteSize > Title.MAX_LEN →
      TodoList.add l item id now =
        (.error (.tooLongTodoTitle (strTrim raw) Title.MAX_LEN), l)) := by
  refine ⟨rfl, ?_, ?_, ?_⟩
  · intro e he
    simp only [TodoList.add, he]
  · intro dl raw hdl hti hraw
    have hti2 : item.title = Title.mk "" := by
      rw [hti, Title.new, hraw]
    have hv : (Title.mk "").validated = .error .emptyTodoTitle := rfl
    simp only [TodoList.add, hdl, hti2, hv]
  · intro dl raw hdl hti hlen
    have hv : (Title.new raw).validated =
        .error (.tooLongTodoTitle (strTrim raw) Title.MAX_LEN) := by
      show (if (strTrim raw).utf8ByteSize < 1 then
              (Except.error AppError.emptyTodoTitle :
                Except AppError String)
            else if (strTrim raw).utf8ByteSize > Title.MAX_LEN then
              .error (.tooLongTodoTitle (strTrim raw) Title.MAX_LEN)
            else .ok (strTrim raw)) =
        .error (.tooLongTodoTitle (strTrim raw) Title.MAX_LEN)
      have hgt : (strTrim raw).utf8ByteSize > 30 := hlen
      rw [if_neg (by omega), if_pos hlen]
    simp only [TodoList.add, hdl, hti, hv]

/-- Witness for C7: an invalid deadline combined with an empty title
reports the deadline error; an only-whitespace title and an over-long
title report the two title errors. -/
theorem c7_add_validation_order_witness :
    TodoList.add [] ⟨Title.new "", .low, some "abc"⟩ 7 0 =
      (.error (.dateTimeParseError "abc" "%Y-%m-%d %H"), []) ∧
    TodoList.add [] ⟨Title.new "  ", .low, none⟩ 7 0 =
      (.error .emptyTodoTitle, []) ∧
    TodoList.add []
        ⟨Title.new "aaaaaaaaaaaaaaaaaaaaaaaaaaaaaaa", .low, none⟩ 7 0 =
      (.error
        (.tooLongTodoTitle "aaaaaaaaaaaaaaaaaaaaaaaaaaaaaaa" 30), []) :=
  ⟨(c7_add_validation_order [] ⟨Title.new "", .low, some "abc"⟩ 7
      0).2.1 _ (by decide),
   (c7_add_validation_order [] ⟨Title.new "  ", .low, none⟩ 7
      0).2.2.1 none "  " (by decide) rfl (by decide),
   (c7_add_validation_order []
      ⟨Title.new "aaaaaaaaaaaaaaaaaaaaaaaaaaaaaaa", .low, none⟩ 7
      0).2.2.2 none "aaaaaaaaaaaaaaaaaaaaaaaaaaaaaaa" (by decide) rfl
      (by decide)⟩

/-- C8: `add` and `update` are all-or-nothing — every error outcome
leaves the store exactly as it was — and an update with every optional
field absent fails with `UpdateHasNoChanges`, leaving the record count
unchanged. -/
theorem c8_mutations_are_atomic :
    (∀ (l : TodoList) (item : NewTodo) (id : Uuid) (now : Int) e,
      (TodoList.add l item id now).1 = .error e →
      (TodoList.add l item id now).2 = l) ∧
    (∀ (l : TodoList) (id : Uuid) (c : UpdateTodo) (now : Int) e,
      (TodoList.update l id c now).1 = .error e →
      (TodoList.update l id c now).2 = l) ∧
    (∀ (l : TodoList) (id : Uuid) (now : Int),
      TodoList.update l id ⟨none, none, none, none⟩ now =
        (.error .updateHasNoChanges, l) ∧
      (TodoList.update l id ⟨none, none, none, none⟩ now).2.count_all =
        l.count_all) := by
  refine ⟨?_, ?_, ?_⟩
  · intro l item id now e h
    cases hdl : OptionalDeadlineInput.unixTime item.deadline with
    | error e2 => simp [TodoList.add, hdl]
    | ok dl =>
      cases hv : item.title.validated with
      | error e2 => simp [TodoList.add, hdl, hv]
      | ok s => simp [TodoList.add, hdl, hv] at h
  · intro l id c now e h
    by_cases hch : c.change_is_present = true
    · cases hdl : OptionalDeadlineInput.unixTime c.deadline with
      | error e2 => simp [TodoList.update, hch, hdl]
      | ok dl =>
        cases hfind : l.find? (fun t => t.id == id) with
        | none => simp [TodoList.update, hch, hdl, hfind]
        | some todo0 =>
          cases hv : (match c.title with
                      | some tu => Except.map some tu.validated
                      | none => .ok none) with
          | error e2 => simp [TodoList.update, hch, hdl, hfind, hv]
          | ok tOpt =>
            simp [TodoList.update, hch, hdl, hfind, hv] at h
    · have hch' : c.change_is_present = false := by
        revert hch
        cases c.change_is_present <;> simp
      simp [TodoList.update, hch']
  · intro l id now
    exact ⟨rfl, rfl⟩

/-- Witness for C8: a failing add and a failing update each leave a
concrete store untouched. -/
theorem c8_mutations_are_atomic_witness :
    (TodoList.add [exTodoA] ⟨Title.new "", .low, none⟩ 7 0).2 =
      [exTodoA] ∧
    (TodoList.update [exTodoA] 9 exChangePriority 5).2 = [exTodoA] ∧
    (TodoList.update [exTodoA] 1 ⟨none, none, none, none⟩ 5).2.count_all
      = TodoList.count_all [exTodoA] :=
  ⟨c8_mutations_are_atomic.1 [exTodoA] ⟨Title.new "", .low, none⟩ 7 0
      .emptyTodoTitle (by decide),
   c8_mutations_are_atomic.2.1 [exTodoA] 9 exChangePriority 5
      (.todoNotFound 9) (by decide),
   (c8_mutations_are_atomic.2.2 [exTodoA] 1 5).2⟩

/-! ## The store invariant -/

/-- The store invariant of the spec: pairwise-distinct identifiers, every
stored title non-empty and at most `MAX_LEN` bytes, and each record's
update timestamp at least its creation timestamp. -/
def StoreInv (l : TodoList) : Prop :=
  (l.map Todo.id).Nodup ∧
  ∀ t ∈ l, t.title ≠ "" ∧ t.title.utf8ByteSize ≤ Title.MAX_LEN ∧
    t.created_timestamp ≤ t.updated_timestamp

/-- Per-record monotonicity of the update timestamp across one
operation. -/
def UpdatedMono (l l' : TodoList) : Prop :=
  ∀ t' ∈ l', ∀ t ∈ l, t'.id = t.id →
    t.updated_timestamp ≤ t'.updated_timestamp

theorem updatedMono_refl {l : TodoList}
    (hnd : (l.map Todo.id).Nodup) : UpdatedMono l l := by
  intro t' ht' t ht hid
  rw [List.inj_on_of_nodup_map hnd ht' ht hid]

theorem validated_ok_bounds {t : Title} {s : String}
    (h : t.validated = .ok s) :
    s ≠ "" ∧ s.utf8ByteSize ≤ Title.MAX_LEN := by
  simp only [Title.validated] at h
  split at h
  · simp at h
  · split at h
    · simp at h
    · rename_i h1 h2
      simp only [Except.ok.injEq] at h
      subst h
      refine ⟨?_, Nat.not_lt.mp h2⟩
      intro h0
      rw [h0] at h1
      exact h1 (by decide)

namespace TodoList

theorem setTodo_mem {l : TodoList} {id : Uuid} {t' x : Todo}
    (hx : x ∈ TodoList.setTodo l id t') :
    x = t' ∨ (x ∈ l ∧ (x.id == id) = false) := by
  unfold TodoList.setTodo at hx
  rw [List.mem_map] at hx
  obtain ⟨u, hu, hux⟩ := hx
  by_cases h : (u.id == id) = true
  · rw [if_pos h] at hux
    exact Or.inl hux.symm
  · rw [if_neg h] at hux
    have h' : (u.id == id) = false := by
      revert h
      cases u.id == id <;> simp
    subst hux
    exact Or.inr ⟨hu, h'⟩

theorem setTodo_map_id {l : TodoList} {id : Uuid} {t' : Todo}
    (hid : t'.id = id) :
    (TodoList.setTodo l id t').map Todo.id = l.map Todo.id := by
  unfold TodoList.setTodo
  rw [List.map_map]
  refine List.map_congr_left ?_
  intro u hu
  simp only [Function.comp]
  by_cases h : u.id = id
  · simp [h, hid]
  · simp [h]

theorem storeInv_filter {l : TodoList} (h : StoreInv l)
    (p : Todo → Bool) :
    StoreInv (l.filter p) ∧ UpdatedMono l (l.filter p) := by
  obtain ⟨hnd, hE⟩ := h
  refine ⟨⟨?_, ?_⟩, ?_⟩
  · exact List.Nodup.sublist
      (List.Sublist.map Todo.id (List.filter_sublist l)) hnd
  · intro t ht
    exact hE t (List.mem_of_mem_filter ht)
  · intro t' ht' t ht hid
    rw [List.inj_on_of_nodup_map hnd (List.mem_of_mem_filter ht') ht
      hid]

end TodoList

/-- C9: every mutating store operation preserves the store invariant
(distinct identifiers, valid titles, update timestamp at least the
creation timestamp) and never decreases any surviving record's update
timestamp; read operations do not change the store.  `add` assumes the
freshly drawn identifier is unused (the `Uuid::new_v4` contract) and
`update` assumes the clock reading is at least every stored update
timestamp (the wall-clock contract). -/
theorem c9_store_invariant :
    (∀ (l : TodoList) (item : NewTodo) (id : Uuid) (now : Int),
      StoreInv l → (∀ t ∈ l, t.id ≠ id) →
      StoreInv (TodoList.add l item id now).2 ∧
        UpdatedMono l (TodoList.add l item id now).2) ∧
    (∀ (l : TodoList) (id : Uuid) (c : UpdateTodo) (now : Int),
      StoreInv l → (∀ t ∈ l, t.updated_timestamp ≤ now) →
      StoreInv (TodoList.update l id c now).2 ∧
        UpdatedMono l (TodoList.update l id c now).2) ∧
    (∀ (l : TodoList) (id : Uuid), StoreInv l →
      StoreInv (TodoList.delete l id).2 ∧
        UpdatedMono l (TodoList.delete l id).2) ∧
    (∀ (l : TodoList) (ts : List Uuid), StoreInv l →
      StoreInv (TodoList.delete_by_ids l ts).2 ∧
        UpdatedMono l (TodoList.delete_by_ids l ts).2) ∧
    (∀ (l : TodoList) (ts : List Priority), StoreInv l →
      StoreInv (TodoList.delete_by_priorities l ts).2 ∧
        UpdatedMono l (TodoList.delete_by_priorities l ts).2) ∧
    (∀ (l : TodoList) (ts : List Status), StoreInv l →
      StoreInv (TodoList.delete_by_statuses l ts).2 ∧
        UpdatedMono l (TodoList.delete_by_statuses l ts).2) ∧
    (∀ (l : TodoList) (s : Status), StoreInv l →
      StoreInv (TodoList.delete_by_status l s).2 ∧
        UpdatedMono l (TodoList.delete_by_status l s).2) ∧
    (∀ l : TodoList, StoreInv l →
      StoreInv (TodoList.delete_all l).2 ∧
        UpdatedMono l (TodoList.delete_all l).2) := by
  have hfilter := @TodoList.storeInv_filter
  refine ⟨?_, ?_, ?_, ?_, ?_, ?_, ?_, ?_⟩
  · intro l item id now hInv hfresh
    obtain ⟨hnd, hE⟩ := hInv
    cases hdl : OptionalDeadlineInput.unixTime item.deadline with
    | error e =>
      simp only [TodoList.add, hdl]
      exact ⟨⟨hnd, hE⟩, updatedMono_refl hnd⟩
    | ok dl =>
      cases hv : item.title.validated with
      | error e =>
        simp only [TodoList.add, hdl, hv]
        exact ⟨⟨hnd, hE⟩, updatedMono_refl hnd⟩
      | ok s =>
        simp only [TodoList.add, hdl, hv]
        obtain ⟨hs1, hs2⟩ := validated_ok_bounds hv
        constructor
        · constructor
          · simp only [List.map_cons]
            rw [List.nodup_cons]
            refine ⟨?_, hnd⟩
            rw [List.mem_map]
            rintro ⟨u, hu, huid⟩
            exact hfresh u hu huid
          · intro t ht
            rcases List.mem_cons.mp ht with rfl | ht
            · exact ⟨hs1, hs2, le_refl _⟩
            · exact hE t ht
        · intro t' ht' t ht hid
          rcases List.mem_cons.mp ht' with rfl | ht'
          · exfalso
            exact hfresh t ht (by simpa using hid.symm)
          · rw [List.inj_on_of_nodup_map hnd ht' ht hid]
  · intro l id c now hInv hclock
    obtain ⟨hnd, hE⟩ := hInv
    by_cases hch : c.change_is_present = true
    case neg =>
      have hch2 : c.change_is_present = false := by
        revert hch
        cases c.change_is_present <;> simp
      simp only [TodoList.update, hch2, Bool.false_eq_true, if_false]
      exact ⟨⟨hnd, hE⟩, updatedMono_refl hnd⟩
    · cases hdl : OptionalDeadlineInput.unixTime c.deadline with
      | error e =>
        simp only [TodoList.update, hch, if_true, hdl]
        exact ⟨⟨hnd, hE⟩, updatedMono_refl hnd⟩
      | ok dl =>
        cases hfind : l.find? (fun t => t.id == id) with
        | none =>
          simp only [TodoList.update, hch, if_true, hdl, hfind]
          exact ⟨⟨hnd, hE⟩, updatedMono_refl hnd⟩
        | some todo0 =>
          cases hv : (match c.title with
                      | some tu => Except.map some tu.validated
                      | none => .ok none) with
          | error e =>
            simp only [TodoList.update, hch, if_true, hdl, hfind, hv]
            exact ⟨⟨hnd, hE⟩, updatedMono_refl hnd⟩
          | ok tOpt =>
            simp only [TodoList.update, hch, if_true, hdl, hfind, hv]
            have htodo0mem := List.mem_of_find?_eq_some hfind
            have htodo0id : todo0.id = id := by
              simpa using List.find?_some hfind
            obtain ⟨hfid, hfcreated, hfupd, hftitle⟩ :=
              TodoList.applyChange_fields todo0 tOpt c.priority
                c.status dl now
            have hFid : (TodoList.applyChange todo0 tOpt c.priority
                c.status dl now).1.id = id := by
              rw [hfid, htodo0id]
            have hT0 := hE todo0 htodo0mem
            have hFtitle : (TodoList.applyChange todo0 tOpt c.priority
                c.status dl now).1.title ≠ "" ∧
                (TodoList.applyChange todo0 tOpt c.priority c.status
                  dl now).1.title.utf8ByteSize ≤ Title.MAX_LEN := by
              rcases hftitle with he | ⟨s, hts, he⟩
              · rw [he]
                exact ⟨hT0.1, hT0.2.1⟩
              · rcases TodoList.titleUpd_char hv with ⟨_, h0⟩ |
                  ⟨tu, s2, _, hvv, h0⟩
                · rw [h0] at hts
                  exact absurd hts (by simp)
                · rw [h0] at hts
                  simp only [Option.some.injEq] at hts
                  subst hts
                  rw [he]
                  exact validated_ok_bounds hvv
            have hFts : (TodoList.applyChange todo0 tOpt c.priority
                c.status dl now).1.created_timestamp ≤
                (TodoList.applyChange todo0 tOpt c.priority c.status
                  dl now).1.updated_timestamp := by
              rw [hfcreated]
              rcases hfupd with he | he
              · rw [he]
                exact hT0.2.2
              · rw [he]
                exact le_trans hT0.2.2 (hclock todo0 htodo0mem)
            constructor
            · constructor
              · rw [TodoList.setTodo_map_id hFid]
                exact hnd
              · intro x hx
                rcases TodoList.setTodo_mem hx with rfl | ⟨hxl, _⟩
                · exact ⟨hFtitle.1, hFtitle.2, hFts⟩
                · exact hE x hxl
            · intro t' ht' t ht hid
              rcases TodoList.setTodo_mem ht' with rfl | ⟨hxl, _⟩
              · have hteq : t = todo0 :=
                  List.inj_on_of_nodup_map hnd ht htodo0mem
                    (by rw [← hid, hFid, htodo0id])
                rcases hfupd with he | he
                · rw [he, hteq]
                · rw [he, hteq]
                  exact hclock todo0 htodo0mem
              · rw [List.inj_on_of_nodup_map hnd hxl ht hid]
  · intro l id hInv
    cases hfind : l.find? (fun t => t.id == id) with
    | some t0 =>
      simp only [TodoList.delete, hfind]
      exact hfilter hInv _
    | none =>
      simp only [TodoList.delete, hfind]
      exact ⟨hInv, updatedMono_refl hInv.1⟩
  · intro l ts hInv
    simp only [TodoList.delete_by_ids, TodoList.delete_by]
    exact hfilter hInv _
  · intro l ts hInv
    simp only [TodoList.delete_by_priorities, TodoList.delete_by]
    exact hfilter hInv _
  · intro l ts hInv
    simp only [TodoList.delete_by_statuses, TodoList.delete_by]
    exact hfilter hInv _
  · intro l s hInv
    simp only [TodoList.delete_by_status, TodoList.delete_by_statuses,
      TodoList.delete_by]
    exact hfilter hInv _
  · intro l hInv
    refine ⟨⟨by simp [TodoList.delete_all], by simp [TodoList.delete_all]⟩, ?_⟩
    intro t' ht'
    simp [TodoList.delete_all] at ht'

/-- Witness for C9: the invariant holds after adding a record with a
fresh identifier to a concrete invariant-satisfying store. -/
theorem c9_store_invariant_witness :
    StoreInv (TodoList.add [exTodoA] ⟨Title.new "b", .low, none⟩ 7
      3).2 ∧
    UpdatedMono [exTodoA] (TodoList.add [exTodoA]
      ⟨Title.new "b", .low, none⟩ 7 3).2 :=
  c9_store_invariant.1 [exTodoA] ⟨Title.new "b", .low, none⟩ 7 3
    (by constructor
        · decide
        · decide)
    (by decide)
